import Mathlib

/-!
Verification development for the python-vxi11 repository.

The Python sources (src/vxi11/vxi11.py and src/vxi11/rpc.py) are shallowly
embedded below: byte strings become `List Nat`, Python ints become `Int`
(or `Nat` where the value is produced by an unsigned decode), fallible
code returns `Except`, and the remote device / network is modelled as an
oracle function from call index to reply.  Loops that are not structurally
terminating in the source take an explicit fuel argument.
-/

deriving instance DecidableEq for Except

namespace Vxi11

/-! ## Constants from src/vxi11/vxi11.py -/

def OP_FLAG_END : Nat := 8
def OP_FLAG_TERMCHAR_SET : Nat := 128

def RX_REQCNT : Nat := 1
def RX_CHR : Nat := 2
def RX_END : Nat := 4

def GPIB_CMD_LAD : Nat := 0x20
def GPIB_CMD_UNL : Nat := 0x3F
def GPIB_CMD_TAD : Nat := 0x40
def GPIB_CMD_UNT : Nat := 0x5F
def GPIB_CMD_SAD : Nat := 0x60

/-! ## InterfaceDevice.create_setup (vxi11.py lines 868-888)

A bus address entry is either a bare primary address or a
(primary, secondary) pair; Python ints are modelled as `Int` so that the
`addr < 0` check is meaningful. -/

/-- GpibEntry models one element of the Python address_list argument:
either an int, or a (primary, secondary) tuple. -/
abbrev GpibEntry : Type := Int ⊕ (Int × Int)

/-- Embedding of the per-entry loop of create_setup: validates each
address (0-30) and appends primary OR listen-address base, then for pairs
the secondary OR secondary-address base.  Raising Vxi11Exception is
modelled as Except.error with the exception's message string. -/
def setup_entries : List GpibEntry → Except String (List Nat)
  | [] => .ok []
  | (.inl a) :: rest =>
    if a < 0 ∨ 30 < a then .error "Invalid address"
    else (setup_entries rest).map (fun t => (a.toNat ||| GPIB_CMD_LAD) :: t)
  | (.inr (a, b)) :: rest =>
    if a < 0 ∨ 30 < a then .error "Invalid address"
    else if b < 0 ∨ 30 < b then .error "Invalid address"
    else (setup_entries rest).map
      (fun t => (a.toNat ||| GPIB_CMD_LAD) :: (b.toNat ||| GPIB_CMD_SAD) :: t)

/-- Embedding of InterfaceDevice.create_setup: the source starts the byte
sequence with bytearray([self._bus_address | GPIB_CMD_TAD, GPIB_CMD_UNL])
and then appends the per-entry bytes. -/
def create_setup (bus : Nat) (addrs : List GpibEntry) : Except String (List Nat) :=
  (setup_entries addrs).map (fun t => (bus ||| GPIB_CMD_TAD) :: GPIB_CMD_UNL :: t)

/-- Modelled from the spec (claim wording, for comparison only): a byte
sequence that FIRST unlistens and untalks the bus, THEN asserts this
controller as talker, then the per-entry bytes. -/
def create_setup_claimed (bus : Nat) (addrs : List GpibEntry) : Except String (List Nat) :=
  (setup_entries addrs).map
    (fun t => GPIB_CMD_UNL :: GPIB_CMD_UNT :: (bus ||| GPIB_CMD_TAD) :: t)

/-- Validity of one address entry exactly as create_setup checks it. -/
def validEntry : GpibEntry → Bool
  | .inl a => decide (0 ≤ a ∧ a ≤ 30)
  | .inr (a, b) => decide (0 ≤ a ∧ a ≤ 30 ∧ 0 ≤ b ∧ b ≤ 30)

/-- Per-entry bytes emitted by create_setup for a valid entry. -/
def entryBytes : List GpibEntry → List Nat
  | [] => []
  | (.inl a) :: rest => (a.toNat ||| GPIB_CMD_LAD) :: entryBytes rest
  | (.inr (a, b)) :: rest =>
    (a.toNat ||| GPIB_CMD_LAD) :: (b.toNat ||| GPIB_CMD_SAD) :: entryBytes rest

lemma setup_entries_valid (addrs : List GpibEntry)
    (h : ∀ e ∈ addrs, validEntry e = true) :
    setup_entries addrs = .ok (entryBytes addrs) := by
  induction addrs with
  | nil => rfl
  | cons e rest ih =>
    have he : validEntry e = true := h e (by simp)
    have hrest : setup_entries rest = .ok (entryBytes rest) :=
      ih (fun x hx => h x (by simp [hx]))
    rcases e with a | ⟨a, b⟩
    · simp only [validEntry, decide_eq_true_eq] at he
      simp only [setup_entries, entryBytes, hrest]
      rw [if_neg (by omega)]
      rfl
    · simp only [validEntry, decide_eq_true_eq] at he
      simp only [setup_entries, entryBytes, hrest]
      rw [if_neg (by omega), if_neg (by omega)]
      rfl

lemma setup_entries_invalid (addrs : List GpibEntry)
    (h : ∃ e ∈ addrs, validEntry e = false) :
    setup_entries addrs = .error "Invalid address" := by
  induction addrs with
  | nil => simp at h
  | cons e rest ih =>
    obtain ⟨x, hx, hbad⟩ := h
    rcases List.mem_cons.mp hx with hhead | htail
    · subst hhead
      rcases x with a | ⟨a, b⟩
      · simp only [validEntry, decide_eq_false_iff_not] at hbad
        simp only [setup_entries]
        rw [if_pos (by omega)]
      · simp only [validEntry, decide_eq_false_iff_not] at hbad
        simp only [setup_entries]
        by_cases h1 : a < 0 ∨ 30 < a
        · rw [if_pos h1]
        · rw [if_neg h1, if_pos (by omega)]
    · have hrest : setup_entries rest = .error "Invalid address" :=
        ih ⟨x, htail, hbad⟩
      rcases e with a | ⟨a, b⟩
      · simp only [setup_entries, hrest]
        by_cases h1 : a < 0 ∨ 30 < a
        · rw [if_pos h1]
        · rw [if_neg h1]; rfl
      · simp only [setup_entries, hrest]
        by_cases h1 : a < 0 ∨ 30 < a
        · rw [if_pos h1]
        · rw [if_neg h1]
          by_cases h2 : b < 0 ∨ 30 < b
          · rw [if_pos h2]
          · rw [if_neg h2]; rfl

/-- C7 (counterexample): the claim says the byte sequence FIRST unlistens
and untalks the bus and THEN asserts this controller as talker.  The code
emits the talk-address byte first, then only an unlisten byte, and never
emits the untalk byte (GPIB_CMD_UNT = 0x5F): with bus address 0 and the
single listener address 5 the code produces [0x40, 0x3F, 0x25], while the
claimed ordering would produce [0x3F, 0x5F, 0x40, 0x25]. -/
theorem create_setup_claim_false :
    create_setup 0 [.inl 5] = .ok [0x40, 0x3F, 0x25] ∧
    create_setup_claimed 0 [.inl 5] = .ok [0x3F, 0x5F, 0x40, 0x25] ∧
    create_setup 0 [.inl 5] ≠ create_setup_claimed 0 [.inl 5] ∧
    GPIB_CMD_UNT ∉ [0x40, 0x3F, 0x25] := by
  refine ⟨rfl, rfl, by decide, by decide⟩

/-- C7 (amended): create_setup returns a byte sequence that first asserts
this controller as talker, then unlistens the bus (no untalk byte is
emitted), then for each entry appends primary OR listen-class bits and,
for pairs, secondary OR secondary-class bits; any entry with a primary or
secondary address outside 0-30 yields the "Invalid address" failure. -/
theorem create_setup_spec (bus : Nat) (addrs : List GpibEntry) :
    ((∀ e ∈ addrs, validEntry e = true) →
      create_setup bus addrs =
        .ok ((bus ||| GPIB_CMD_TAD) :: GPIB_CMD_UNL :: entryBytes addrs)) ∧
    ((∃ e ∈ addrs, validEntry e = false) →
      create_setup bus addrs = .error "Invalid address") := by
  constructor
  · intro h
    simp only [create_setup, setup_entries_valid addrs h]
    rfl
  · intro h
    simp only [create_setup, setup_entries_invalid addrs h]
    rfl

/-- Witness for C7's amended theorem at concrete inputs: listeners 5 and
(12, 3) produce the expected command bytes, and an out-of-range address 31
produces the "Invalid address" failure. -/
theorem create_setup_spec_witness :
    create_setup 1 [.inl 5, .inr (12, 3)] =
      .ok [0x41, 0x3F, 0x25, 0x2C, 0x63] ∧
    create_setup 1 [.inl 31] = .error "Invalid address" := by
  constructor
  · exact ((create_setup_spec 1 [.inl 5, .inr (12, 3)]).1
      (by intro e he; fin_cases he <;> decide)).trans (by decide)
  · exact (create_setup_spec 1 [.inl 31]).2 ⟨.inl 31, by simp, by decide⟩

/-! ## Device.close (vxi11.py lines 608-616) -/

/-- Fragment of the Device state that close touches: the link handle and
whether a transport client object is present. -/
structure DevSt where
  link : Option Int
  hasClient : Bool
deriving DecidableEq

/-- Observable actions taken by Device.close. -/
inductive CloseAct where
  | destroyLink (handle : Int)
  | clientClose
deriving DecidableEq

/-- Embedding of Device.close.  The argument destroyReply is the error
code returned by the destroy_link RPC; the source never inspects it
(close neither raises on it nor branches on it), so the returned state and
action list are the same for every reply code. -/
def dev_close (destroyReply : Int) (st : DevSt) : DevSt × List CloseAct :=
  match st.link with
  | none => (st, [])
  | some h =>
    -- self.client.destroy_link(self.link); self.client.close();
    -- self.link = None; self.client = None  -- destroyReply is ignored
    (⟨none, false⟩, [.destroyLink h, .clientClose])

/-- C8: whenever close is called while the link is Open, it issues
destroy-link with the current handle, tears down the transport connection
(client.close), and transitions the device to Closed (link and client
cleared), for every possible destroy-link reply error code. -/
theorem dev_close_always_closes (destroyReply : Int) (st : DevSt) (h : Int)
    (hopen : st.link = some h) :
    dev_close destroyReply st = (⟨none, false⟩, [.destroyLink h, .clientClose]) := by
  simp [dev_close, hopen]

/-- Witness for C8: closing an open device with handle 7 under a nonzero
destroy-link error code 4 still tears down and clears the state. -/
theorem dev_close_always_closes_witness :
    dev_close 4 ⟨some 7, true⟩ = (⟨none, false⟩, [.destroyLink 7, .clientClose]) :=
  dev_close_always_closes 4 ⟨some 7, true⟩ 7 rfl

/-! ## Unpacker.done (vxi11.py lines 390-392) and Client.make_call
(rpc.py lines 171-184)

The xdrlib unpacker state is a buffer plus a position. -/

/-- Unpacker state: the reply buffer and the extraction position. -/
structure Unp where
  buf : List Nat
  pos : Nat
deriving DecidableEq

/-- Modelled from the spec: the base xdrlib.Unpacker.done (Python
standard library, not part of src/) raises an Error exception when not
all of the data has been extracted, i.e. when the position is still
short of the buffer length. -/
def xdrlib_done (u : Unp) : Except Unit Unit :=
  if u.pos < u.buf.length then .error () else .ok ()

/-- Embedding of vxi11.Unpacker.done, which overrides the base method
with a bare pass: any trailing bytes are ignored. -/
def vxi11_done (_ : Unp) : Except Unit Unit := .ok ()

/-- Embedding of the decode tail of Client.make_call: run the
procedure-specific unpack function on the reply buffer from position 0,
then invoke the unpacker's done method; a done failure aborts the call.
The inl error is a decode failure, the inr error is the done failure. -/
def make_call_decode {E A : Type} (doneF : Unp → Except Unit Unit)
    (dec : Unp → Except E (A × Unp)) (reply : List Nat) : Except (E ⊕ Unit) A :=
  match dec ⟨reply, 0⟩ with
  | .error e => .error (.inl e)
  | .ok (r, u') =>
    match doneF u' with
    | .error _ => .error (.inr ())
    | .ok _ => .ok r

/-- C10: with the vxi11 Unpacker's done override, make_call succeeds on
any reply whose decode succeeds, no matter how many unconsumed bytes
trail the decoded response; with the base xdrlib done, the same reply
with trailing bytes makes the call fail. -/
theorem make_call_ignores_trailing {E A : Type} (dec : Unp → Except E (A × Unp))
    (reply : List Nat) (r : A) (u' : Unp)
    (hdec : dec ⟨reply, 0⟩ = .ok (r, u')) (hbuf : u'.buf = reply) :
    make_call_decode vxi11_done dec reply = .ok r ∧
    (u'.pos < reply.length →
      make_call_decode xdrlib_done dec reply = .error (.inr ())) := by
  constructor
  · simp [make_call_decode, hdec, vxi11_done]
  · intro htrail
    simp [make_call_decode, hdec, xdrlib_done, hbuf, htrail]

/-- Witness for C10: a decoder that consumes the first two bytes of a
four-byte reply succeeds under the vxi11 done override and fails under
the base xdrlib done. -/
theorem make_call_ignores_trailing_witness :
    make_call_decode (E := Unit) (A := Nat) vxi11_done
      (fun u => .ok (99, ⟨u.buf, 2⟩)) [0, 0, 5, 5] = .ok 99 ∧
    make_call_decode (E := Unit) (A := Nat) xdrlib_done
      (fun u => .ok (99, ⟨u.buf, 2⟩)) [0, 0, 5, 5] = .error (.inr ()) := by
  have h := make_call_ignores_trailing (E := Unit) (A := Nat)
    (fun u => .ok (99, ⟨u.buf, 2⟩)) [0, 0, 5, 5] 99 ⟨[0, 0, 5, 5], 2⟩ rfl rfl
  exact ⟨h.1, h.2 (by decide)⟩

/-! ## RawTCPClient.do_call (rpc.py lines 266-283)

The stream of reply records is modelled by the xid each record's header
carries (env k is the xid of the k-th record read by recvrecord). -/

/-- Outcome of the TCP receive loop. -/
inductive TcpOut where
  | accepted (k : Nat)
  | badXid (k : Nat)
  | noFuel
deriving DecidableEq

/-- Embedding of the receive loop of RawTCPClient.do_call starting at
record index k: a record whose xid equals lastxid is accepted, a smaller
xid is stale and discarded (read another record), a larger xid raises
RPCError immediately. -/
def tcp_do_call_go (env : Nat → Nat) (lastxid : Nat) : Nat → Nat → TcpOut
  | 0, _ => .noFuel
  | fuel + 1, k =>
    let xid := env k
    if xid = lastxid then .accepted k
    else if xid < lastxid then tcp_do_call_go env lastxid fuel (k + 1)
    else .badXid k

/-- Embedding of RawTCPClient.do_call's receive loop from the first
record. -/
def tcp_do_call (env : Nat → Nat) (lastxid : Nat) (fuel : Nat) : TcpOut :=
  tcp_do_call_go env lastxid fuel 0

lemma tcp_do_call_go_spec (env : Nat → Nat) (lastxid : Nat) :
    ∀ (J : Nat) (fuel k : Nat), (∀ j < J, env (k + j) < lastxid) → J < fuel →
      (env (k + J) = lastxid → tcp_do_call_go env lastxid fuel k = .accepted (k + J)) ∧
      (lastxid < env (k + J) → tcp_do_call_go env lastxid fuel k = .badXid (k + J)) := by
  intro J
  induction J with
  | zero =>
    intro fuel k _ hfuel
    obtain ⟨f, rfl⟩ : ∃ f, fuel = f + 1 := ⟨fuel - 1, by omega⟩
    constructor
    · intro heq
      simp only [tcp_do_call_go, Nat.add_zero] at *
      rw [if_pos heq]
    · intro hgt
      simp only [tcp_do_call_go, Nat.add_zero] at *
      rw [if_neg (by omega), if_neg (by omega)]
  | succ J ih =>
    intro fuel k hstale hfuel
    obtain ⟨f, rfl⟩ : ∃ f, fuel = f + 1 := ⟨fuel - 1, by omega⟩
    have h0 : env k < lastxid := by
      have := hstale 0 (by omega)
      simpa using this
    have hrest : ∀ j < J, env ((k + 1) + j) < lastxid := by
      intro j hj
      have := hstale (j + 1) (by omega)
      simpa [Nat.add_assoc, Nat.add_comm 1 j] using this
    have ihk := ih f (k + 1) hrest (by omega)
    have harr : (k + 1) + J = k + (J + 1) := by omega
    constructor
    · intro heq
      simp only [tcp_do_call_go]
      rw [if_neg (by omega), if_pos h0]
      rw [harr] at ihk
      exact ihk.1 heq
    · intro hgt
      simp only [tcp_do_call_go]
      rw [if_neg (by omega), if_pos h0]
      rw [harr] at ihk
      exact ihk.2 hgt

/-- C5: in RawTCPClient.do_call, every reply record with xid below the
outstanding call's xid is discarded and another record is read; the first
record with xid not below the outstanding xid decides the call: equal xid
is accepted as the call's reply, greater xid fails the call immediately
with an RPC error. -/
theorem tcp_do_call_xid_discipline (env : Nat → Nat) (lastxid fuel J : Nat)
    (hstale : ∀ j < J, env j < lastxid) (hfuel : J < fuel) :
    (env J = lastxid → tcp_do_call env lastxid fuel = .accepted J) ∧
    (lastxid < env J → tcp_do_call env lastxid fuel = .badXid J) := by
  have h := tcp_do_call_go_spec env lastxid J fuel 0 (by simpa using hstale) hfuel
  simpa [tcp_do_call] using h

/-- Witness for C5: with outstanding xid 3 and record stream of xids
1, 2, 3, the loop discards the two stale records and accepts record 2;
with record stream 1, 5 the second record's larger xid fails the call. -/
theorem tcp_do_call_xid_discipline_witness :
    tcp_do_call (fun k => [1, 2, 3].getD k 0) 3 10 = .accepted 2 ∧
    tcp_do_call (fun k => [1, 5].getD k 0) 3 10 = .badXid 1 := by
  constructor
  · exact (tcp_do_call_xid_discipline (fun k => [1, 2, 3].getD k 0) 3 10 2
      (by decide) (by decide)).1 (by decide)
  · exact (tcp_do_call_xid_discipline (fun k => [1, 5].getD k 0) 3 10 1
      (by decide) (by decide)).2 (by decide)

/-! ## RawUDPClient.do_call (rpc.py lines 300-329)

Each iteration of the retry loop performs one select; env k tells what
the k-th select produced: none for a timeout expiry, some x for a
datagram whose reply header carries xid x. -/

/-- Outcome of the UDP retry loop. -/
inductive UdpOut where
  | accepted (k : Nat)
  | timedOut
  | noFuel
deriving DecidableEq

/-- Embedding of the retry loop of RawUDPClient.do_call.  State: k is the
select index, timeout the current select timeout, count the remaining
retry budget (a Python int that is allowed to reach -1).  Returns the
outcome together with the list of select timeouts actually waited and the
number of resends performed. -/
def udp_do_call_go (env : Nat → Option Nat) (lastxid : Nat) :
    Nat → Nat → Nat → Int → List Nat → Nat → UdpOut × List Nat × Nat
  | 0, _, _, _, waits, resends => (.noFuel, waits, resends)
  | fuel + 1, k, timeout, count, waits, resends =>
    let waits' := waits ++ [timeout]
    match env k with
    | none =>
      -- self.sock not in r: count -= 1; raise on exhaustion; double the
      -- timeout while it is below 25; resend and continue
      if count - 1 < 0 then (.timedOut, waits', resends)
      else
        udp_do_call_go env lastxid fuel (k + 1)
          (if timeout < 25 then timeout * 2 else timeout) (count - 1)
          waits' (resends + 1)
    | some x =>
      if x ≠ lastxid then udp_do_call_go env lastxid fuel (k + 1) timeout count waits' resends
      else (.accepted k, waits', resends)

/-- Embedding of RawUDPClient.do_call: timeout starts at 1, count at 5. -/
def udp_do_call (env : Nat → Option Nat) (lastxid : Nat) (fuel : Nat) :
    UdpOut × List Nat × Nat :=
  udp_do_call_go env lastxid fuel 0 1 5 [] 0

/-- C4 (counterexample): against a server that never answers, the actual
select timeouts are 1, 2, 4, 8, 16, 32 — six waits whose last exceeds the
claimed 25-unit ceiling (the code only stops doubling once the timeout is
at least 25, letting it reach 32) — not the claimed capped sequence
1, 2, 4, 8, 16. -/
theorem udp_backoff_claim_false :
    udp_do_call (fun _ => none) 7 10 = (.timedOut, [1, 2, 4, 8, 16, 32], 5) ∧
    (udp_do_call (fun _ => none) 7 10).2.1 ≠ [1, 2, 4, 8, 16] ∧
    (∃ w ∈ (udp_do_call (fun _ => none) 7 10).2.1, 25 < w) := by
  refine ⟨by decide, by decide, ⟨32, by decide, by decide⟩⟩

lemma udp_do_call_go_accept (env : Nat → Option Nat) (lastxid : Nat) :
    ∀ (J : Nat) (fuel k : Nat) (timeout : Nat) (count : Int)
      (waits : List Nat) (resends : Nat),
      env (k + J) = some lastxid →
      (∀ i < J, env (k + i) ≠ some lastxid) →
      (((List.range J).countP (fun i => (env (k + i)).isNone) : Int) ≤ count) →
      J < fuel →
      (udp_do_call_go env lastxid fuel k timeout count waits resends).1 =
        .accepted (k + J) := by
  intro J
  induction J with
  | zero =>
    intro fuel k timeout count waits resends hmatch _ _ hfuel
    obtain ⟨f, rfl⟩ : ∃ f, fuel = f + 1 := ⟨fuel - 1, by omega⟩
    simp only [Nat.add_zero] at hmatch
    simp only [udp_do_call_go, hmatch]
    rw [if_neg (by simp)]
    simp
  | succ J ih =>
    intro fuel k timeout count waits resends hmatch hmiss hcount hfuel
    obtain ⟨f, rfl⟩ : ∃ f, fuel = f + 1 := ⟨fuel - 1, by omega⟩
    have hmatch' : env ((k + 1) + J) = some lastxid := by
      rw [show (k + 1) + J = k + (J + 1) by omega]; exact hmatch
    have hmiss' : ∀ i < J, env ((k + 1) + i) ≠ some lastxid := by
      intro i hi
      rw [show (k + 1) + i = k + (i + 1) by omega]
      exact hmiss (i + 1) (by omega)
    have hsplit : (List.range (J + 1)).countP (fun i => (env (k + i)).isNone) =
        (List.range J).countP (fun i => (env ((k + 1) + i)).isNone) +
          (if (env k).isNone then 1 else 0) := by
      rw [List.range_succ_eq_map, List.countP_cons, List.countP_map]
      have hcomp : ((fun i => (env (k + i)).isNone) ∘ Nat.succ) =
          (fun i => (env ((k + 1) + i)).isNone) := by
        funext i
        simp only [Function.comp]
        congr 2
        omega
      rw [hcomp]
      simp only [Nat.add_zero]
    rcases hek : env k with _ | x
    · -- timeout expiry: count decremented, timeout possibly doubled, resend
      have hkNone : (env k).isNone = true := by rw [hek]; rfl
      rw [hsplit, if_pos hkNone] at hcount
      push_cast at hcount
      simp only [udp_do_call_go, hek]
      rw [if_neg (by omega)]
      have hcount' : (((List.range J).countP
          (fun i => (env ((k + 1) + i)).isNone) : Int) ≤ count - 1) := by omega
      have := ih f (k + 1) (if timeout < 25 then timeout * 2 else timeout)
        (count - 1) (waits ++ [timeout]) (resends + 1) hmatch' hmiss' hcount' (by omega)
      rw [show (k + 1) + J = k + (J + 1) by omega] at this
      exact this
    · -- a datagram arrived; its xid cannot match (i = 0 is below J + 1)
      have hx : x ≠ lastxid := by
        intro hcontra
        exact hmiss 0 (by omega) (by simpa [hcontra] using hek)
      have hkSome : (env k).isNone = false := by rw [hek]; rfl
      rw [hsplit, hkSome] at hcount
      simp only [if_neg Bool.false_ne_true, Nat.add_zero] at hcount
      simp only [udp_do_call_go, hek]
      rw [if_pos hx]
      have := ih f (k + 1) timeout count (waits ++ [timeout]) resends
        hmatch' hmiss' hcount (by omega)
      rw [show (k + 1) + J = k + (J + 1) by omega] at this
      exact this

/-- C4 (amended): against a server that never answers, do_call performs
the initial send plus exactly 5 resends, waiting 1, 2, 4, 8, 16 and then
32 time-units (the timeout doubles on each expiry only while below 25, so
the final wait is 32, above the 25 threshold), and then raises a timeout
failure; replies with mismatched xid are silently discarded without
consuming the retry budget, and a matching reply at any select before the
budget is exhausted (at most 5 timeout expiries beforehand) completes the
call. -/
theorem udp_do_call_retry_behavior (env : Nat → Option Nat) (lastxid fuel : Nat) :
    ((∀ k < 6, env k = none) → 6 ≤ fuel →
      udp_do_call env lastxid fuel = (.timedOut, [1, 2, 4, 8, 16, 32], 5)) ∧
    (∀ J : Nat, env J = some lastxid → (∀ i < J, env i ≠ some lastxid) →
      (List.range J).countP (fun i => (env i).isNone) ≤ 5 → J < fuel →
      (udp_do_call env lastxid fuel).1 = .accepted J) := by
  constructor
  · intro hnone hfuel
    obtain ⟨f, rfl⟩ : ∃ f, fuel = f + 6 := ⟨fuel - 6, by omega⟩
    simp only [udp_do_call, udp_do_call_go, hnone 0 (by omega), hnone 1 (by omega),
      hnone 2 (by omega), hnone 3 (by omega), hnone 4 (by omega), hnone 5 (by omega)]
    norm_num
  · intro J hmatch hmiss hcount hfuel
    have hc : ((List.range J).countP (fun i => (env (0 + i)).isNone) : Int) ≤ 5 := by
      simp only [Nat.zero_add]
      exact_mod_cast hcount
    have := udp_do_call_go_accept env lastxid J fuel 0 1 5 [] 0
      (by simpa using hmatch) (by simpa using hmiss) hc hfuel
    simpa [udp_do_call] using this

/-- Select outcomes for the C4 witness: a timeout, a mismatched reply,
another timeout, then the matching reply. -/
def udpEnvW : Nat → Option Nat :=
  fun k => [none, some 9, none, some 7].getD k none

/-- Witness for C4's amended theorem: the never-answering trace, and the
mixed trace where the matching reply at select 3 completes the call. -/
theorem udp_do_call_retry_behavior_witness :
    udp_do_call (fun _ => none) 7 10 = (.timedOut, [1, 2, 4, 8, 16, 32], 5) ∧
    (udp_do_call udpEnvW 7 10).1 = .accepted 3 := by
  constructor
  · exact (udp_do_call_retry_behavior (fun _ => none) 7 10).1
      (by intro k _; rfl) (by omega)
  · exact (udp_do_call_retry_behavior udpEnvW 7 10).2 3
      (by decide) (by decide) (by decide) (by decide)

/-! ## Device.write_raw (vxi11.py lines 632-668)

The device is an oracle wdev mapping the index of each device_write call
to the (error, size) pair decoded from its reply.  A transmitted block is
recorded together with the flags word it was sent with. -/

/-- One device_write call as transmitted: the flags word and the data
block. -/
structure WriteBlock where
  flags : Nat
  data : List Nat
deriving DecidableEq

/-- Failure modes of write_raw.  typeError models the Python 3 TypeError
raised by data += term_char, where term_char is an int (indexing a bytes
object yields an int, and bytes + int is a TypeError).  noFuel marks fuel
exhaustion of the embedding and is unreachable for positive
max_recv_size. -/
inductive WriteErr where
  | vxi (code : Int)
  | incompleteBlock
  | typeError
  | noFuel
deriving DecidableEq

/-- Embedding of the while-loop of Device.write_raw.  State: k is the
device_write call index, flags the current flags word (Python mutates one
variable, so OP_FLAG_END persists once OR'd in), offset the slice start,
num the remaining byte count (a Python int, so Int here).  acc records
the transmitted blocks. -/
def write_raw_go (wdev : Nat → Int × Nat) (m : Nat) (data : List Nat) :
    Nat → Nat → Nat → Nat → Int → List WriteBlock → Except WriteErr (List WriteBlock)
  | 0, _, _, _, _, _ => .error .noFuel
  | fuel + 1, k, flags, offset, num, acc =>
    if 0 < num then
      let flags' := if num ≤ (m : Int) then flags ||| OP_FLAG_END else flags
      let block := (data.drop offset).take m
      let r := wdev k
      if r.1 ≠ 0 then .error (.vxi r.1)
      else if r.2 < block.length then .error .incompleteBlock
      else write_raw_go wdev m data fuel (k + 1) flags' (offset + r.2) (num - (r.2 : Int))
        (acc ++ [⟨flags', block⟩])
    else .ok acc

/-- Embedding of Device.write_raw.  With a configured term_char the
source computes term_char = str(self.term_char).encode('utf-8')[0] (an
int) and evaluates data += term_char, which raises TypeError in Python 3
before any block is sent; with no term_char the loop runs with flags
starting at 0. -/
def write_raw (wdev : Nat → Int × Nat) (m : Nat) (term_char : Option Char)
    (data : List Nat) : Except WriteErr (List WriteBlock) :=
  match term_char with
  | some _ => .error .typeError
  | none => write_raw_go wdev m data (data.length + 1) 0 0 0 (data.length : Int) []

/-- Reference description of the blocks write_raw transmits for a fully
accepting device: the payload cut into max_recv_size pieces, the last
piece (and only it) carrying OP_FLAG_END. -/
def chunkBlocks (m : Nat) : Nat → List Nat → List WriteBlock
  | 0, _ => []
  | _ + 1, [] => []
  | fuel + 1, a :: l =>
    if (a :: l).length ≤ m then [⟨OP_FLAG_END, a :: l⟩]
    else ⟨0, (a :: l).take m⟩ :: chunkBlocks m fuel ((a :: l).drop m)

/-- Wrapper fixing the fuel of chunkBlocks to the payload length, which
suffices whenever the block size is positive. -/
def chunksOf (m : Nat) (l : List Nat) : List WriteBlock := chunkBlocks m l.length l

/-- Length of the j-th block write_raw offers (0 past the end). -/
def chunkLen (m : Nat) (l : List Nat) (j : Nat) : Nat :=
  (((chunksOf m l).get? j).map (fun b => b.data.length)).getD 0

/-- Device oracle that accepts every offered block in full with error
code 0. -/
def acceptAll (m : Nat) (l : List Nat) : Nat → Int × Nat :=
  fun k => (0, chunkLen m l k)

lemma chunkBlocks_congr (m : Nat) (hm : 0 < m) :
    ∀ (f1 f2 : Nat) (l : List Nat), l.length ≤ f1 → l.length ≤ f2 →
      chunkBlocks m f1 l = chunkBlocks m f2 l := by
  intro f1
  induction f1 with
  | zero =>
    intro f2 l h1 _
    have : l = [] := by
      cases l with
      | nil => rfl
      | cons a t => simp at h1
    subst this
    cases f2 <;> rfl
  | succ f ih =>
    intro f2 l h1 h2
    cases l with
    | nil => cases f2 <;> rfl
    | cons a t =>
      cases f2 with
      | zero => simp at h2
      | succ f2' =>
        simp only [chunkBlocks]
        by_cases hle : (a :: t).length ≤ m
        · rw [if_pos hle, if_pos hle]
        · rw [if_neg hle, if_neg hle]
          congr 1
          apply ih
          · rw [List.length_drop]
            simp only [List.length_cons] at h1 ⊢
            omega
          · rw [List.length_drop]
            simp only [List.length_cons] at h2 ⊢
            omega

lemma chunksOf_last (m : Nat) (l : List Nat) (hne : l ≠ []) (hle : l.length ≤ m) :
    chunksOf m l = [⟨OP_FLAG_END, l⟩] := by
  cases l with
  | nil => exact absurd rfl hne
  | cons a t =>
    simp only [chunksOf, List.length_cons, chunkBlocks]
    rw [if_pos (by simpa using hle)]

lemma chunksOf_step (m : Nat) (hm : 0 < m) (l : List Nat) (hgt : m < l.length) :
    chunksOf m l = ⟨0, l.take m⟩ :: chunksOf m (l.drop m) := by
  cases l with
  | nil => simp at hgt
  | cons a t =>
    simp only [chunksOf, List.length_cons, chunkBlocks]
    rw [if_neg (by simp only [List.length_cons] at hgt; omega)]
    congr 1
    apply chunkBlocks_congr m hm
    · rw [List.length_drop]
      simp only [List.length_cons] at hgt ⊢
      omega
    · exact le_rfl

lemma chunkLen_zero (m : Nat) (hm : 0 < m) (l : List Nat) (hne : l ≠ []) :
    chunkLen m l 0 = min m l.length := by
  by_cases hle : l.length ≤ m
  · rw [chunkLen, chunksOf_last m l hne hle]
    simp
    omega
  · rw [chunkLen, chunksOf_step m hm l (by omega)]
    simp [List.length_take]

lemma chunkLen_succ (m : Nat) (hm : 0 < m) (l : List Nat) (hgt : m < l.length)
    (j : Nat) : chunkLen m l (j + 1) = chunkLen m (l.drop m) j := by
  rw [chunkLen, chunkLen, chunksOf_step m hm l hgt]
  rfl

lemma write_raw_go_stop (wdev : Nat → Int × Nat) (m : Nat) (data : List Nat)
    (fuel k flags offset : Nat) (num : Int) (acc : List WriteBlock)
    (hf : 0 < fuel) (hnum : ¬ 0 < num) :
    write_raw_go wdev m data fuel k flags offset num acc = .ok acc := by
  obtain ⟨f, rfl⟩ : ∃ f, fuel = f + 1 := ⟨fuel - 1, by omega⟩
  simp only [write_raw_go]
  rw [if_neg hnum]

lemma write_raw_go_acceptAll (m : Nat) (hm : 0 < m) :
    ∀ (fuel : Nat) (data l : List Nat) (offset k : Nat) (acc : List WriteBlock)
      (wdev : Nat → Int × Nat),
      l = data.drop offset →
      l.length + 1 ≤ fuel →
      (∀ j, wdev (k + j) = (0, chunkLen m l j)) →
      write_raw_go wdev m data fuel k 0 offset (l.length : Int) acc =
        .ok (acc ++ chunksOf m l) := by
  intro fuel
  induction fuel with
  | zero => intro data l offset k acc wdev _ hf _; omega
  | succ fuel ih =>
    intro data l offset k acc wdev hl hf hdev
    by_cases hne' : l = []
    · subst hne'
      rw [write_raw_go_stop _ _ _ _ _ _ _ _ _ (by omega) (by simp)]
      simp [chunksOf, chunkBlocks]
    · have hlen : 0 < l.length := List.length_pos.mpr hne'
      have hdev0 : wdev k = (0, chunkLen m l 0) := by simpa using hdev 0
      simp only [write_raw_go]
      rw [if_pos (by omega : (0 : Int) < (l.length : Int))]
      rw [hdev0]
      dsimp only
      rw [if_neg (by simp)]
      have hblock : (data.drop offset).take m = l.take m := by rw [hl]
      by_cases hle : l.length ≤ m
      · -- final (or only) block: END is OR'd in and the whole rest is sent
        have hc0 : chunkLen m l 0 = l.length := by
          rw [chunkLen_zero m hm l hne']; omega
        have htake : l.take m = l := List.take_of_length_le hle
        rw [if_neg (by rw [hblock, htake, hc0]; omega)]
        rw [if_pos (by omega : ((l.length : Int) ≤ (m : Int)))]
        rw [hc0, hblock, htake]
        rw [show (l.length : Int) - (l.length : Int) = 0 by omega]
        rw [write_raw_go_stop _ _ _ _ _ _ _ _ _ (by omega) (by omega)]
        rw [chunksOf_last m l hne' hle]
        simp [OP_FLAG_END]
      · -- full-size interior block: no END, loop continues on the rest
        have hgt : m < l.length := by omega
        have hc0 : chunkLen m l 0 = m := by
          rw [chunkLen_zero m hm l hne']; omega
        have htakelen : (l.take m).length = m := by
          rw [List.length_take]; omega
        rw [if_neg (by rw [hblock, htakelen, hc0]; omega)]
        rw [if_neg (by omega : ¬ ((l.length : Int) ≤ (m : Int)))]
        rw [hc0, hblock]
        have hdrop : l.drop m = data.drop (offset + m) := by
          rw [hl, List.drop_drop, Nat.add_comm]
        have hnum' : (l.length : Int) - (m : Int) = ((l.drop m).length : Int) := by
          rw [List.length_drop]; omega
        rw [hnum']
        have hshift : ∀ j, wdev ((k + 1) + j) = (0, chunkLen m (l.drop m) j) := by
          intro j
          rw [show (k + 1) + j = k + (j + 1) by omega, hdev (j + 1),
            chunkLen_succ m hm l hgt]
        have := ih data (l.drop m) (offset + m) (k + 1) (acc ++ [⟨0, l.take m⟩])
          wdev hdrop (by rw [List.length_drop]; omega) hshift
        rw [this, chunksOf_step m hm l hgt]
        simp

lemma write_raw_go_short (m : Nat) (hm : 0 < m) :
    ∀ (fuel : Nat) (data l : List Nat) (offset k : Nat) (acc : List WriteBlock)
      (wdev : Nat → Int × Nat) (J s : Nat),
      l = data.drop offset →
      l.length + 1 ≤ fuel →
      (∀ i < J, wdev (k + i) = (0, chunkLen m l i)) →
      wdev (k + J) = (0, s) →
      J < (chunksOf m l).length →
      s < chunkLen m l J →
      write_raw_go wdev m data fuel k 0 offset (l.length : Int) acc =
        .error .incompleteBlock := by
  intro fuel
  induction fuel with
  | zero => intro data l offset k acc wdev J s _ hf _ _ _ _; omega
  | succ fuel ih =>
    intro data l offset k acc wdev J s hl hf hdev hJ hJlt hshort
    by_cases hne' : l = []
    · subst hne'
      simp [chunksOf, chunkBlocks] at hJlt
    · have hlen : 0 < l.length := List.length_pos.mpr hne'
      have hblock : (data.drop offset).take m = l.take m := by rw [hl]
      have htakelen : (l.take m).length = min m l.length := List.length_take m l
      simp only [write_raw_go]
      rw [if_pos (by omega : (0 : Int) < (l.length : Int))]
      cases J with
      | zero =>
        have hJ0 : wdev k = (0, s) := by simpa using hJ
        rw [hJ0]
        dsimp only
        rw [if_neg (by simp)]
        rw [if_pos (by
          rw [hblock, htakelen]
          rw [chunkLen_zero m hm l hne'] at hshort
          omega)]
      | succ J' =>
        have hgt : m < l.length := by
          by_contra hc
          rw [chunksOf_last m l hne' (by omega)] at hJlt
          simp at hJlt
        have hdev0 : wdev k = (0, chunkLen m l 0) := by simpa using hdev 0 (by omega)
        have hc0 : chunkLen m l 0 = m := by
          rw [chunkLen_zero m hm l hne']; omega
        rw [hdev0]
        dsimp only
        rw [if_neg (by simp)]
        rw [if_neg (by rw [hblock, htakelen, hc0]; omega)]
        rw [if_neg (by omega : ¬ ((l.length : Int) ≤ (m : Int)))]
        rw [hc0, hblock]
        have hdrop : l.drop m = data.drop (offset + m) := by
          rw [hl, List.drop_drop, Nat.add_comm]
        have hnum' : (l.length : Int) - (m : Int) = ((l.drop m).length : Int) := by
          rw [List.length_drop]; omega
        rw [hnum']
        refine ih data (l.drop m) (offset + m) (k + 1) (acc ++ [⟨0, l.take m⟩])
          wdev J' s hdrop (by rw [List.length_drop]; omega) ?_ ?_ ?_ ?_
        · intro i hi
          rw [show (k + 1) + i = k + (i + 1) by omega, hdev (i + 1) (by omega),
            chunkLen_succ m hm l hgt]
        · rw [show (k + 1) + J' = k + (J' + 1) by omega]
          exact hJ
        · rw [chunksOf_step m hm l hgt] at hJlt
          simpa using hJlt
        · rw [← chunkLen_succ m hm l hgt]
          exact hshort

lemma chunksOf_join (m : Nat) (hm : 0 < m) :
    ∀ (n : Nat) (l : List Nat), l.length = n →
      ((chunksOf m l).map WriteBlock.data).flatten = l := by
  intro n
  induction n using Nat.strong_induction_on with
  | _ n ih =>
    intro l hn
    rcases List.eq_nil_or_concat' l with rfl | hne
    · simp [chunksOf, chunkBlocks]
    · have hne' : l ≠ [] := by rcases hne with ⟨t, a, rfl⟩; simp
      by_cases hle : l.length ≤ m
      · rw [chunksOf_last m l hne' hle]; simp
      · rw [chunksOf_step m hm l (by omega)]
        simp only [List.map_cons, List.flatten_cons]
        rw [ih (l.drop m).length (by rw [List.length_drop]; omega) (l.drop m) rfl]
        exact List.take_append_drop m l

lemma chunksOf_sizes (m : Nat) (hm : 0 < m) :
    ∀ (n : Nat) (l : List Nat), l.length = n →
      ∀ b ∈ chunksOf m l, b.data.length ≤ m := by
  intro n
  induction n using Nat.strong_induction_on with
  | _ n ih =>
    intro l hn b hb
    rcases List.eq_nil_or_concat' l with rfl | hne
    · simp [chunksOf, chunkBlocks] at hb
    · have hne' : l ≠ [] := by rcases hne with ⟨t, a, rfl⟩; simp
      by_cases hle : l.length ≤ m
      · rw [chunksOf_last m l hne' hle] at hb
        simp at hb
        rw [hb]
        exact hle
      · rw [chunksOf_step m hm l (by omega)] at hb
        rcases List.mem_cons.mp hb with rfl | hb'
        · simp [List.length_take]
        · exact ih (l.drop m).length (by rw [List.length_drop]; omega)
            (l.drop m) rfl b hb'

lemma chunksOf_count (m : Nat) (hm : 0 < m) :
    ∀ (n : Nat) (l : List Nat), l.length = n →
      (chunksOf m l).length = (l.length + m - 1) / m := by
  intro n
  induction n using Nat.strong_induction_on with
  | _ n ih =>
    intro l hn
    rcases List.eq_nil_or_concat' l with rfl | hne
    · rw [show chunksOf m [] = [] from rfl]
      simp only [List.length_nil, Nat.zero_add]
      rw [Nat.div_eq_of_lt (by omega)]
    · have hne' : l ≠ [] := by rcases hne with ⟨t, a, rfl⟩; simp
      have hpos : 0 < l.length := List.length_pos.mpr hne'
      by_cases hle : l.length ≤ m
      · rw [chunksOf_last m l hne' hle]
        simp only [List.length_singleton]
        symm
        apply Nat.div_eq_of_lt_le <;> omega
      · rw [chunksOf_step m hm l (by omega)]
        simp only [List.length_cons]
        rw [ih (l.drop m).length (by rw [List.length_drop]; omega) (l.drop m) rfl]
        rw [List.length_drop]
        rw [show l.length - m + m - 1 = l.length - 1 by omega,
          show l.length + m - 1 = (l.length - 1) + m by omega,
          Nat.add_div_right _ hm]

lemma chunksOf_ne_nil (m : Nat) (hm : 0 < m) (l : List Nat) (hne : l ≠ []) :
    chunksOf m l ≠ [] := by
  by_cases hle : l.length ≤ m
  · rw [chunksOf_last m l hne hle]; simp
  · rw [chunksOf_step m hm l (by omega)]; simp

lemma chunksOf_flags (m : Nat) (hm : 0 < m) :
    ∀ (n : Nat) (l : List Nat), l.length = n →
      ∀ (i : Nat) (h : i < (chunksOf m l).length),
        ((chunksOf m l).get ⟨i, h⟩).flags =
          if i + 1 = (chunksOf m l).length then OP_FLAG_END else 0 := by
  intro n
  induction n using Nat.strong_induction_on with
  | _ n ih =>
    intro l hn i h
    rcases List.eq_nil_or_concat' l with rfl | hne
    · simp [chunksOf, chunkBlocks] at h
    · have hne' : l ≠ [] := by rcases hne with ⟨t, a, rfl⟩; simp
      by_cases hle : l.length ≤ m
      · have hc := chunksOf_last m l hne' hle
        subst hn
        revert h
        rw [hc]
        intro h
        have hi0 : i = 0 := by simpa using Nat.lt_one_iff.mp (by simpa using h)
        subst hi0
        simp
      · have hstep := chunksOf_step m hm l (by omega)
        have hdne : l.drop m ≠ [] := by
          have : 0 < (l.drop m).length := by rw [List.length_drop]; omega
          intro hc; rw [hc] at this; simp at this
        have hrne : chunksOf m (l.drop m) ≠ [] :=
          chunksOf_ne_nil m hm (l.drop m) hdne
        revert h
        rw [hstep]
        intro h
        cases i with
        | zero =>
          simp only [List.get]
          rw [if_neg (by
            simp only [List.length_cons]
            have : 0 < (chunksOf m (l.drop m)).length := List.length_pos.mpr hrne
            omega)]
        | succ i' =>
          simp only [List.get, List.length_cons] at h ⊢
          rw [ih (l.drop m).length (by rw [List.length_drop]; omega) (l.drop m) rfl
            i' (by omega)]
          by_cases hlast : i' + 1 = (chunksOf m (l.drop m)).length
          · rw [if_pos hlast, if_pos (by omega)]
          · rw [if_neg hlast, if_neg (by omega)]

/-- C1: with no terminator configured and a positive negotiated receive
size m, write_raw against a fully accepting device transmits exactly the
payload cut into blocks of at most m bytes (ceil(len/m) blocks, so a
payload of 2.5 times m yields 3 blocks), whose concatenation is the
payload, with OP_FLAG_END on the last block and only on it; and against
any device whose reply at some call J accepts fewer bytes than the
offered block (after fully accepting the earlier blocks), write_raw
raises the "did not write complete block" failure instead of silently
continuing. -/
theorem write_raw_chunking (m : Nat) (data : List Nat) (hm : 0 < m) :
    (write_raw (acceptAll m data) m none data = .ok (chunksOf m data)) ∧
    ((chunksOf m data).map WriteBlock.data).flatten = data ∧
    (∀ b ∈ chunksOf m data, b.data.length ≤ m) ∧
    (chunksOf m data).length = (data.length + m - 1) / m ∧
    (∀ (i : Nat) (h : i < (chunksOf m data).length),
      ((chunksOf m data).get ⟨i, h⟩).flags =
        if i + 1 = (chunksOf m data).length then OP_FLAG_END else 0) ∧
    (∀ (wdev : Nat → Int × Nat) (J s : Nat),
      (∀ i < J, wdev i = (0, chunkLen m data i)) → wdev J = (0, s) →
      J < (chunksOf m data).length → s < chunkLen m data J →
      write_raw wdev m none data = .error .incompleteBlock) := by
  refine ⟨?_, chunksOf_join m hm data.length data rfl,
    chunksOf_sizes m hm data.length data rfl,
    chunksOf_count m hm data.length data rfl,
    chunksOf_flags m hm data.length data rfl, ?_⟩
  · have := write_raw_go_acceptAll m hm (data.length + 1) data data 0 0 []
      (acceptAll m data) (by simp) le_rfl (fun j => by simp [acceptAll])
    simpa [write_raw] using this
  · intro wdev J s hdev hJ hJlt hshort
    have := write_raw_go_short m hm (data.length + 1) data data 0 0 []
      wdev J s (by simp) le_rfl (by simpa using hdev) (by simpa using hJ)
      hJlt hshort
    simpa [write_raw] using this

/-- Device oracle for the C1 witness that accepts only 1 byte of the
second offered 2-byte block. -/
def shortDev : Nat → Int × Nat :=
  fun k => if k = 1 then (0, 1) else (0, chunkLen 2 [1, 2, 3, 4, 5] k)

/-- Witness for C1 with m = 2 and a 5-byte payload (2.5 blocks): three
blocks [1,2], [3,4], [5] with END only on the last, and the short-accept
device at call 1 triggers the incomplete-block failure. -/
theorem write_raw_chunking_witness :
    write_raw (acceptAll 2 [1, 2, 3, 4, 5]) 2 none [1, 2, 3, 4, 5] =
      .ok [⟨0, [1, 2]⟩, ⟨0, [3, 4]⟩, ⟨OP_FLAG_END, [5]⟩] ∧
    write_raw shortDev 2 none [1, 2, 3, 4, 5] = .error .incompleteBlock := by
  constructor
  · exact ((write_raw_chunking 2 [1, 2, 3, 4, 5] (by decide)).1).trans (by decide)
  · exact (write_raw_chunking 2 [1, 2, 3, 4, 5] (by decide)).2.2.2.2.2 shortDev 1 1
      (by decide) (by decide) (by decide) (by decide)

/-- C3 (code bug): with a configured single-byte terminator, write_raw in
the source sets flags = OP_FLAG_TERMCHAR_SET, computes
term_char = str(self.term_char).encode('utf-8')[0] — which in Python 3 is
an int — and evaluates data += term_char, a TypeError (bytes plus int);
and even apart from the crash, the very next statement flags = 0
unconditionally discards OP_FLAG_TERMCHAR_SET, so the termchar flag could
never be carried on the write.  Evaluating the embedding at the failing
input: a device with term_char set crashes before sending any block. -/
theorem write_raw_termchar_crashes :
    write_raw (acceptAll 8 [42]) 8 (some '\n') [42] = .error .typeError := rfl

/-! ## Device.read_raw (vxi11.py lines 670-712)

The device is an oracle rdev mapping the index of each device_read call
to the decoded (error, reason, data) reply; reason is the low 32-bit word
of the signed reason field, which preserves the semantics of Python's
bitmask test reason & (RX_END | RX_CHR). -/

/-- Failure modes of read_raw. -/
inductive ReadErr where
  | vxi (code : Int)
  | noFuel
deriving DecidableEq

/-- Embedding of the while-loop of Device.read_raw.  State: k is the
device_read call index, read_len the current request size, num the
remaining requested byte count (a Python int: non-positive means
unbounded), reason the previous reply's reason word (0 before the first
call).  acc accumulates the returned bytes; reqs records the request
size of every device_read actually issued. -/
def read_raw_go (rdev : Nat → Int × Nat × List Nat) :
    Nat → Nat → Nat → Int → Nat → List Nat → List Nat →
      Except ReadErr (List Nat × List Nat)
  | 0, _, _, _, _, _, _ => .error .noFuel
  | fuel + 1, k, read_len, num, reason, acc, reqs =>
    if reason &&& (RX_END ||| RX_CHR) = 0 then
      let r := rdev k
      let reqs' := reqs ++ [read_len]
      if r.1 ≠ 0 then .error (.vxi r.1)
      else
        let acc' := acc ++ r.2.2
        if 0 < num then
          let num' := num - (r.2.2.length : Int)
          if num' ≤ 0 then .ok (acc', reqs')
          else
            read_raw_go rdev fuel (k + 1)
              (if num' < (read_len : Int) then num'.toNat else read_len)
              num' r.2.1 acc' reqs'
        else read_raw_go rdev fuel (k + 1) read_len num r.2.1 acc' reqs'
    else .ok (acc, reqs)

/-- Embedding of Device.read_raw: the initial request size is num if a
bound 0 < num < max_recv_size was given, else max_recv_size. -/
def read_raw (rdev : Nat → Int × Nat × List Nat) (m : Nat) (num : Int)
    (fuel : Nat) : Except ReadErr (List Nat × List Nat) :=
  read_raw_go rdev fuel 0
    (if 0 < num ∧ num < (m : Int) then num.toNat else m) num 0 [] []

/-- Total number of data bytes in the first j replies. -/
def preLen (rdev : Nat → Int × Nat × List Nat) : Nat → Nat
  | 0 => 0
  | j + 1 => preLen rdev j + (rdev j).2.2.length

/-- Concatenation of the data of the first j replies. -/
def catData (rdev : Nat → Int × Nat × List Nat) : Nat → List Nat
  | 0 => []
  | j + 1 => catData rdev j ++ (rdev j).2.2

/-- Reason word of the j-th reply. -/
def reasonAt (rdev : Nat → Int × Nat × List Nat) (j : Nat) : Nat :=
  (rdev j).2.1

/-- Expected request size of the j-th device_read: the smaller of the
negotiated receive size and the remaining bounded count, or the
negotiated receive size when no bound was given. -/
def reqExpected (rdev : Nat → Int × Nat × List Nat) (m : Nat) (num : Int)
    (j : Nat) : Nat :=
  if 0 < num then min m (num - (preLen rdev j : Int)).toNat else m

lemma preLen_len (rdev : Nat → Int × Nat × List Nat) (j : Nat) :
    (catData rdev j).length = preLen rdev j := by
  induction j with
  | zero => rfl
  | succ j ih => simp [catData, preLen, ih]

lemma read_raw_go_spec (rdev : Nat → Int × Nat × List Nat) (m : Nat) (num : Int) :
    ∀ (fuel k : Nat) (read_len : Nat) (num_cur : Int) (reason : Nat)
      (acc reqs0 bytes reqs : List Nat),
      read_raw_go rdev fuel k read_len num_cur reason acc reqs0 = .ok (bytes, reqs) →
      acc = catData rdev k →
      reqs0.length = k →
      (∀ j, j < k → reqs0.get? j = some (reqExpected rdev m num j)) →
      (0 < num → num_cur = num - (preLen rdev k : Int) ∧ 0 < num_cur ∧
        read_len = min m num_cur.toNat) →
      (¬ 0 < num → num_cur = num ∧ read_len = m) →
      ((k = 0 ∧ reason = 0) ∨ (0 < k ∧ reason = reasonAt rdev (k - 1))) →
      (∀ j, j + 1 < k → reasonAt rdev j &&& (RX_END ||| RX_CHR) = 0 ∧
        (0 < num → (preLen rdev (j + 1) : Int) < num)) →
      ((∀ j, j + 1 < reqs.length → reasonAt rdev j &&& (RX_END ||| RX_CHR) = 0 ∧
          (0 < num → (preLen rdev (j + 1) : Int) < num)) ∧
        (∀ j, j < reqs.length → reqs.get? j = some (reqExpected rdev m num j)) ∧
        bytes = catData rdev reqs.length ∧
        0 < reqs.length ∧
        (reasonAt rdev (reqs.length - 1) &&& (RX_END ||| RX_CHR) ≠ 0 ∨
          (0 < num ∧ num ≤ (preLen rdev reqs.length : Int)))) := by
  intro fuel
  induction fuel with
  | zero =>
    intro k read_len num_cur reason acc reqs0 bytes reqs h
    simp [read_raw_go] at h
  | succ fuel ih =>
    intro k read_len num_cur reason acc reqs0 bytes reqs h hacc hlen hpast
      hbnd hunb hreas hprev
    simp only [read_raw_go] at h
    by_cases hstop : reason &&& (RX_END ||| RX_CHR) = 0
    · rw [if_pos hstop] at h
      by_cases herr : (rdev k).1 ≠ 0
      · rw [if_pos herr] at h
        simp at h
      · rw [if_neg herr] at h
        -- call k was issued with request size read_len
        have hreqk : (reqs0 ++ [read_len]).get? k = some read_len := by
          rw [← hlen]
          exact List.get?_concat_length reqs0 read_len
        have hpast' : ∀ j, j < k + 1 →
            (reqs0 ++ [read_len]).get? j = some (reqExpected rdev m num j) := by
          intro j hj
          rcases Nat.lt_or_ge j k with hjk | hjk
          · rw [List.get?_append (by omega)]
            exact hpast j hjk
          · have hj' : j = k := by omega
            subst hj'
            rw [hreqk]
            by_cases hn : 0 < num
            · obtain ⟨hcur, hcpos, hrl⟩ := hbnd hn
              rw [reqExpected, if_pos hn, ← hcur, ← hrl]
            · obtain ⟨hcur, hrl⟩ := hunb hn
              rw [reqExpected, if_neg hn, hrl]
        have hprev' : ∀ j, j + 1 < k + 1 →
            reasonAt rdev j &&& (RX_END ||| RX_CHR) = 0 ∧
              (0 < num → (preLen rdev (j + 1) : Int) < num) := by
          intro j hj
          rcases Nat.lt_or_ge (j + 1) k with hjk | hjk
          · exact hprev j hjk
          · have hj' : j + 1 = k := by omega
            constructor
            · rcases hreas with ⟨hk0, _⟩ | ⟨hkpos, hr⟩
              · omega
              · rw [show j = k - 1 by omega, ← hr]
                exact hstop
            · intro hn
              obtain ⟨hcur, hcpos, _⟩ := hbnd hn
              rw [hj']
              omega
        have hacc' : acc ++ (rdev k).2.2 = catData rdev (k + 1) := by
          rw [hacc]; rfl
        by_cases hpos : 0 < num_cur
        · rw [if_pos hpos] at h
          have hn : 0 < num := by
            by_contra hn
            obtain ⟨hcur, _⟩ := hunb hn
            omega
          obtain ⟨hcur, _, hrl⟩ := hbnd hn
          by_cases hbrk : num_cur - ((rdev k).2.2.length : Int) ≤ 0
          · -- bounded count reached: break and return
            rw [if_pos hbrk] at h
            rw [Except.ok.injEq, Prod.mk.injEq] at h
            obtain ⟨hbytes, hreqs⟩ := h
            subst hbytes
            subst hreqs
            have hlen' : (reqs0 ++ [read_len]).length = k + 1 := by
              simp [hlen]
            rw [hlen']
            refine ⟨fun j hj => hprev' j (by omega), fun j hj => hpast' j (by omega),
              by rw [hacc'], by omega, Or.inr ⟨hn, ?_⟩⟩
            have hpl : preLen rdev (k + 1) = preLen rdev k + (rdev k).2.2.length := rfl
            rw [hpl]
            push_cast
            omega
          · -- bound not yet reached: trim the request size and loop
            rw [if_neg hbrk] at h
            refine ih (k + 1) _ _ _ _ _ bytes reqs h hacc' (by simp [hlen]) hpast'
              ?_ (fun hn' => absurd hn hn') (Or.inr ⟨by omega, rfl⟩) hprev'
            intro _
            have hpl : preLen rdev (k + 1) = preLen rdev k + (rdev k).2.2.length := rfl
            refine ⟨by rw [hpl]; push_cast; omega, by omega, ?_⟩
            by_cases htrim : num_cur - ((rdev k).2.2.length : Int) < (read_len : Int)
            · rw [if_pos htrim]
              rw [hrl] at htrim
              omega
            · rw [if_neg htrim]
              rw [hrl] at htrim ⊢
              omega
        · -- no bound: loop with the same read_len and num
          rw [if_neg hpos] at h
          have hn : ¬ 0 < num := by
            intro hn
            obtain ⟨_, hcpos, _⟩ := hbnd hn
            omega
          obtain ⟨hcur, hrl⟩ := hunb hn
          refine ih (k + 1) _ _ _ _ _ bytes reqs h hacc' (by simp [hlen]) hpast'
            (fun hn' => absurd hn' hn) (fun _ => ⟨hcur, hrl⟩)
            (Or.inr ⟨by omega, rfl⟩) hprev'
    · -- the previous reply carried a stop bit: return without reading
      rw [if_neg hstop] at h
      rw [Except.ok.injEq, Prod.mk.injEq] at h
      obtain ⟨hbytes, hreqs⟩ := h
      subst hbytes
      subst hreqs
      have hk : 0 < k := by
        rcases hreas with ⟨_, hr0⟩ | ⟨hkpos, _⟩
        · rw [hr0] at hstop
          simp at hstop
        · exact hkpos
      rw [hlen]
      refine ⟨fun j hj => hprev j hj, fun j hj => hpast j hj, by rw [hacc],
        by omega, Or.inl ?_⟩
      rcases hreas with ⟨hk0, _⟩ | ⟨_, hr⟩
      · omega
      · rw [← hr]
        exact hstop

/-- C2: whenever read_raw returns, every device_read other than the last
was followed by another only because its reply's reason lacked both the
terminator-seen bit RX_CHR and the end bit RX_END (and, for a bounded
count, because fewer than num bytes had been produced); once a reply
carries either bit, or the bound is reached, no further device_read is
issued; the returned bytes are the concatenation of all reply data; and
every request size is the smaller of the negotiated receive size and the
remaining bounded count (or the negotiated receive size when
unbounded). -/
theorem read_raw_trace (rdev : Nat → Int × Nat × List Nat) (m : Nat) (num : Int)
    (fuel : Nat) (bytes reqs : List Nat)
    (h : read_raw rdev m num fuel = .ok (bytes, reqs)) :
    (∀ j, j + 1 < reqs.length → reasonAt rdev j &&& (RX_END ||| RX_CHR) = 0 ∧
      (0 < num → (preLen rdev (j + 1) : Int) < num)) ∧
    (∀ j, j < reqs.length → reqs.get? j = some (reqExpected rdev m num j)) ∧
    bytes = catData rdev reqs.length ∧
    0 < reqs.length ∧
    (reasonAt rdev (reqs.length - 1) &&& (RX_END ||| RX_CHR) ≠ 0 ∨
      (0 < num ∧ num ≤ (preLen rdev reqs.length : Int))) := by
  refine read_raw_go_spec rdev m num fuel 0 _ num 0 [] [] bytes reqs h rfl rfl
    (by omega) ?_ ?_ (Or.inl ⟨rfl, rfl⟩) (by omega)
  · intro hn
    refine ⟨by simp [preLen], hn, ?_⟩
    by_cases hlt : 0 < num ∧ num < (m : Int)
    · rw [if_pos hlt]
      simp [preLen]
      omega
    · rw [if_neg hlt]
      simp [preLen]
      omega
  · intro hn
    rw [if_neg (by omega)]
    exact ⟨rfl, rfl⟩

/-! ## InterfaceDevice.find_listeners (vxi11.py lines 1072-1126)

Every remote operation the scan performs (device_lock, the docmd behind
send_command / set_atn / test_ndac, device_unlock) is one RPC whose reply
is given by the oracle env, indexed by the number of RPCs made so far: an
error code (raising Vxi11Exception) or a success value (the decoded
result; for test_ndac, nonzero means the NDAC line is asserted). -/

/-- The remote operations find_listeners can issue, in source order. -/
inductive GOp where
  | lockC
  | unlockC
  | sendC (cmd : List Nat)
  | atnC (val : Bool)
  | ndacC
deriving DecidableEq

/-- Scan-visible state: the RPC count (next oracle index), the local
locked flag of the Device, and the trace of operations issued. -/
structure ScanSt where
  k : Nat
  locked : Bool
  trace : List GOp
deriving DecidableEq

/-- Run one remote operation: consume one oracle slot; on success lock()
sets the locked flag and unlock() clears it (the source updates
self.locked only after the error check passes). -/
def opRun (env : Nat → Except Int Nat) (op : GOp) (s : ScanSt) :
    Except Int Nat × ScanSt :=
  match env s.k with
  | .error e => (.error e, ⟨s.k + 1, s.locked, s.trace ++ [op]⟩)
  | .ok v =>
    (.ok v, ⟨s.k + 1,
      match op with
      | .lockC => true
      | .unlockC => false
      | _ => s.locked,
      s.trace ++ [op]⟩)

/-- Failures that can propagate out of the scan body. -/
inductive ScanErr where
  | dev (code : Int)
  | invalidAddr
deriving DecidableEq

/-- A discovered listener: a primary address or a (primary, secondary)
pair. -/
abbrev GFound : Type := Int ⊕ (Int × Nat)

/-- One presence probe: send_command cmd, set_atn(False), then
test_ndac; returns whether NDAC was asserted. -/
def probeNdac (env : Nat → Except Int Nat) (cmd : List Nat) (s : ScanSt) :
    Except ScanErr Bool × ScanSt :=
  match opRun env (.sendC cmd) s with
  | (.error e, s1) => (.error (.dev e), s1)
  | (.ok _, s1) =>
    match opRun env (.atnC false) s1 with
    | (.error e, s2) => (.error (.dev e), s2)
    | (.ok _, s2) =>
      match opRun env .ndacC s2 with
      | (.error e, s3) => (.error (.dev e), s3)
      | (.ok v, s3) => (.ok (v != 0), s3)

/-- Bisection step of find_listeners: probe each secondary address of the
range individually, recording every (primary, secondary) that responds. -/
def subScan (env : Nat → Except Int Nat) (bus : Nat) (addr : Int) :
    List Nat → List GFound → ScanSt → Except ScanErr (List GFound) × ScanSt
  | [], found, s => (.ok found, s)
  | sa :: rest, found, s =>
    match probeNdac env
        [GPIB_CMD_UNL, GPIB_CMD_UNT, bus ||| GPIB_CMD_TAD,
          addr.toNat ||| GPIB_CMD_LAD, sa ||| GPIB_CMD_SAD] s with
    | (.error e, s1) => (.error e, s1)
    | (.ok b, s1) =>
      subScan env bus addr rest
        (if b then found ++ [.inr (addr, sa)] else found) s1

/-- The per-address loop of find_listeners: probe the primary address,
else probe all 31 secondary addresses at once, and if that responds
bisect with subScan. -/
def scanAddrs (env : Nat → Except Int Nat) (bus : Nat) :
    List GpibEntry → List GFound → ScanSt → Except ScanErr (List GFound) × ScanSt
  | [], found, s => (.ok found, s)
  | a :: rest, found, s =>
    let addr : Int := match a with | .inl v => v | .inr p => p.1
    if addr < 0 ∨ 30 < addr then (.error .invalidAddr, s)
    else
      match probeNdac env
          [GPIB_CMD_UNL, GPIB_CMD_UNT, bus ||| GPIB_CMD_TAD,
            addr.toNat ||| GPIB_CMD_LAD] s with
      | (.error e, s1) => (.error e, s1)
      | (.ok true, s1) => scanAddrs env bus rest (found ++ [.inl addr]) s1
      | (.ok false, s1) =>
        match probeNdac env
            ([GPIB_CMD_UNL, GPIB_CMD_UNT, bus ||| GPIB_CMD_TAD,
              addr.toNat ||| GPIB_CMD_LAD] ++
              (List.range 31).map (fun sa => sa ||| GPIB_CMD_SAD)) s1 with
        | (.error e, s2) => (.error e, s2)
        | (.ok false, s2) => scanAddrs env bus rest found s2
        | (.ok true, s2) =>
          match subScan env bus addr (List.range 31) found s2 with
          | (.error e, s3) => (.error e, s3)
          | (.ok found', s3) => scanAddrs env bus rest found' s3

/-- The try-block of find_listeners: self.lock(), the scan over the
address list, then the in-try self.unlock(). -/
def try_body (env : Nat → Except Int Nat) (bus : Nat) (addrs : List GpibEntry) :
    Except ScanErr (List GFound) × ScanSt :=
  match opRun env .lockC ⟨0, false, []⟩ with
  | (.error e, s1) => (.error (.dev e), s1)
  | (.ok _, s1) =>
    match scanAddrs env bus addrs [] s1 with
    | (.error e, s2) => (.error e, s2)
    | (.ok found, s2) =>
      match opRun env .unlockC s2 with
      | (.error e, s3) => (.error (.dev e), s3)
      | (.ok _, s3) => (.ok found, s3)

/-- Embedding of find_listeners: on any exception from the try-block the
except-handler calls self.unlock() again and re-raises (an error from
that unlock replaces the original exception, as in Python). -/
def find_listeners (env : Nat → Except Int Nat) (bus : Nat)
    (addrs : List GpibEntry) : Except ScanErr (List GFound) × ScanSt :=
  match try_body env bus addrs with
  | (.ok found, s) => (.ok found, s)
  | (.error e, s) =>
    match opRun env .unlockC s with
    | (.error e2, s') => (.error (.dev e2), s')
    | (.ok _, s') => (.error e, s')

lemma opRun_k (env : Nat → Except Int Nat) (op : GOp) (s : ScanSt) :
    (opRun env op s).2.k = s.k + 1 := by
  cases henv : env s.k <;> simp [opRun, henv]

lemma opRun_trace (env : Nat → Except Int Nat) (op : GOp) (s : ScanSt) :
    (opRun env op s).2.trace = s.trace ++ [op] := by
  cases henv : env s.k <;> simp [opRun, henv]

lemma opRun_fst (env : Nat → Except Int Nat) (op : GOp) (s : ScanSt) :
    (opRun env op s).1 = env s.k := by
  cases henv : env s.k <;> simp [opRun, henv]

lemma opRun_unlock_locked (env : Nat → Except Int Nat) (s : ScanSt)
    (h : (env s.k).isOk = true) :
    (opRun env .unlockC s).2.locked = false := by
  cases henv : env s.k with
  | error e => rw [henv] at h; simp [Except.isOk, Except.toBool] at h
  | ok v => simp [opRun, henv]

lemma try_body_ok (env : Nat → Except Int Nat) (bus : Nat)
    (addrs : List GpibEntry) (found : List GFound) (s : ScanSt)
    (h : try_body env bus addrs = (.ok found, s)) :
    ∃ s2 v, opRun env .unlockC s2 = (.ok v, s) := by
  rw [try_body] at h
  rcases hlock : opRun env .lockC ⟨0, false, []⟩ with ⟨res1, s1⟩
  rw [hlock] at h
  cases res1 with
  | error e => simp at h
  | ok v1 =>
    simp only at h
    rcases hscan : scanAddrs env bus addrs [] s1 with ⟨res2, s2⟩
    rw [hscan] at h
    cases res2 with
    | error e => simp at h
    | ok found2 =>
      simp only at h
      rcases hunl : opRun env .unlockC s2 with ⟨res3, s3⟩
      rw [hunl] at h
      cases res3 with
      | error e => simp at h
      | ok v =>
        simp only [Prod.mk.injEq, Except.ok.injEq] at h
        exact ⟨s2, v, by rw [hunl, h.2]⟩

/-- C6: every run of find_listeners — whether it returns its result
normally or propagates an exception — ends by issuing a device_unlock;
and whenever that final unlock RPC succeeds, the device's locked flag is
false when find_listeners terminates, so no such execution leaves the
device locked. -/
theorem find_listeners_releases (env : Nat → Except Int Nat) (bus : Nat)
    (addrs : List GpibEntry) (hlock : (env 0).isOk = true) :
    GOp.unlockC ∈ (find_listeners env bus addrs).2.trace ∧
    ((env ((find_listeners env bus addrs).2.k - 1)).isOk = true →
      (find_listeners env bus addrs).2.locked = false) := by
  rw [find_listeners]
  rcases hbody : try_body env bus addrs with ⟨res, s⟩
  cases res with
  | ok found =>
    simp only
    obtain ⟨s2, v, hunl⟩ := try_body_ok env bus addrs found s hbody
    have htr : s.trace = s2.trace ++ [GOp.unlockC] := by
      have h0 := opRun_trace env .unlockC s2
      rw [hunl] at h0
      exact h0
    have hk : s.k = s2.k + 1 := by
      have h0 := opRun_k env .unlockC s2
      rw [hunl] at h0
      exact h0
    have henv2 : env s2.k = .ok v := by
      have h0 := opRun_fst env .unlockC s2
      rw [hunl] at h0
      exact h0.symm
    have hlocked : s.locked = false := by
      have := opRun_unlock_locked env s2 (by rw [henv2]; rfl)
      rw [hunl] at this
      exact this
    exact ⟨by rw [htr]; simp, fun _ => hlocked⟩
  | error e =>
    simp only
    rcases hunl : opRun env .unlockC s with ⟨res2, s'⟩
    have htr : s'.trace = s.trace ++ [GOp.unlockC] := by
      have h0 := opRun_trace env .unlockC s
      rw [hunl] at h0
      exact h0
    have hk : s'.k = s.k + 1 := by
      have h0 := opRun_k env .unlockC s
      rw [hunl] at h0
      exact h0
    have hlocked : (env s.k).isOk = true → s'.locked = false := by
      intro hok
      have := opRun_unlock_locked env s hok
      rw [hunl] at this
      exact this
    cases res2 with
    | error e2 =>
      simp only
      refine ⟨by rw [htr]; simp, ?_⟩
      intro hok
      rw [hk] at hok
      simp only [Nat.add_sub_cancel] at hok
      exact hlocked hok
    | ok v =>
      simp only
      refine ⟨by rw [htr]; simp, ?_⟩
      intro hok
      rw [hk] at hok
      simp only [Nat.add_sub_cancel] at hok
      exact hlocked hok

/-- Oracle for the C6 witness in which every RPC succeeds and NDAC reads
back asserted. -/
def envScanOk : Nat → Except Int Nat := fun _ => .ok 1

/-- Oracle for the C6 witness in which the probe's send_command (the
second RPC) fails with error code 4, injecting a mid-scan exception. -/
def envScanFail : Nat → Except Int Nat := fun k => if k = 1 then .error 4 else .ok 1

/-- Witness for C6: a clean scan of address 5 ends unlocked with the
unlock in its trace, and so does a scan aborted by a mid-scan RPC error
(the exception path). -/
theorem find_listeners_releases_witness :
    (GOp.unlockC ∈ (find_listeners envScanOk 0 [.inl 5]).2.trace ∧
      (find_listeners envScanOk 0 [.inl 5]).2.locked = false) ∧
    (GOp.unlockC ∈ (find_listeners envScanFail 0 [.inl 5]).2.trace ∧
      (find_listeners envScanFail 0 [.inl 5]).2.locked = false) := by
  have h1 := find_listeners_releases envScanOk 0 [.inl 5] rfl
  have h2 := find_listeners_releases envScanFail 0 [.inl 5] rfl
  exact ⟨⟨h1.1, h1.2 (by decide)⟩, ⟨h2.1, h2.2 (by decide)⟩⟩

/-- Reply oracle for the C2 witness: every device_read reply reports the
terminator-seen reason RX_CHR with the bytes "A\n". -/
def rdevC2 : Nat → Int × Nat × List Nat := fun _ => (0, RX_CHR, [65, 10])

/-- Witness for C2: with an unbounded read (num = -1) against rdevC2, a
single device_read of the full negotiated size 8 is issued, the returned
bytes are that reply's data, and the loop stopped because the reply
carried a stop bit. -/
theorem read_raw_trace_witness :
    [65, 10] = catData rdevC2 1 ∧ (0 : Nat) < 1 ∧
    (reasonAt rdevC2 0 &&& (RX_END ||| RX_CHR) ≠ 0 ∨
      (0 < (-1 : Int) ∧ (-1 : Int) ≤ (preLen rdevC2 1 : Int))) := by
  have h := read_raw_trace rdevC2 8 (-1) 5 [65, 10] [8] (by decide)
  exact ⟨h.2.2.1, h.2.2.2.1, h.2.2.2.2⟩

/-! ## parse_visa_resource_string (vxi11.py lines 126-145)

The source matches the pattern
TCPIP[digits] :: arg1 [:: arg2] :: INSTR, case-insensitively, where arg1
is one or more non-space non-colon characters and arg2 is one or more
non-space non-colon characters optionally followed by a bracketed token
of arbitrary characters.  The pattern is embedded as data for a small
backtracking matcher implementing Python's leftmost-greedy semantics for
this fragment (greedy repetition over character classes, greedy option,
numbered capture groups, and the terminal anchor that also accepts a
single trailing newline). -/

/-- Regular-expression fragment used by the source pattern. -/
inductive RE where
  | eps
  | cls (p : Char → Bool)
  | seq (a b : RE)
  | star (p : Char → Bool)
  | plus (p : Char → Bool)
  | opt (a : RE)
  | grp (idx : Nat) (a : RE)

/-- Capture-group store; a later entry for an index shadows earlier
ones. -/
abbrev Groups : Type := List (Nat × List Char)

def gset (g : Groups) (i : Nat) (v : List Char) : Groups := (i, v) :: g

def gget (g : Groups) (i : Nat) : Option (List Char) :=
  (g.find? (fun e => e.1 == i)).map (fun e => e.2)

/-- Greedy backtracking for a character-class repetition whose first n
characters of s are known to satisfy the class: try consuming n
characters, then n-1, down to none. -/
def starGo (s : List Char) (g : Groups)
    (kont : List Char → Groups → Option Groups) : Nat → Option Groups
  | 0 => kont s g
  | n + 1 => (kont (s.drop (n + 1)) g).orElse (fun _ => starGo s g kont n)

/-- Backtracking matcher in continuation-passing style. -/
def reMatch : RE → List Char → Groups → (List Char → Groups → Option Groups) →
    Option Groups
  | .eps, s, g, kont => kont s g
  | .cls p, s, g, kont =>
    match s with
    | [] => none
    | c :: s' => if p c then kont s' g else none
  | .seq a b, s, g, kont => reMatch a s g (fun s' g' => reMatch b s' g' kont)
  | .star p, s, g, kont => starGo s g kont (s.takeWhile p).length
  | .plus p, s, g, kont =>
    match s with
    | [] => none
    | c :: s' => if p c then starGo s' g kont (s'.takeWhile p).length else none
  | .opt a, s, g, kont => (reMatch a s g kont).orElse (fun _ => kont s g)
  | .grp i a, s, g, kont =>
    reMatch a s g (fun s' g' => kont s' (gset g' i (s.take (s.length - s'.length))))

/-- Case-insensitive literal letter (the source passes re.I). -/
def ciLetter (c : Char) : Char → Bool := fun x => x.toLower == c

/-- Exact character. -/
def chOne (c : Char) : Char → Bool := fun x => x == c

/-- Python \d for ASCII input. -/
def pyDigit : Char → Bool := fun c => c.isDigit

/-- Python \s: space, tab, newline, carriage return, vertical tab, form
feed. -/
def pySpace : Char → Bool := fun c =>
  c == ' ' || c == '\t' || c == '\n' || c == '\r' || c == '\x0b' || c == '\x0c'

/-- The character class of arg1 and arg2 pieces. -/
def nonSpaceColon : Char → Bool := fun c => !(pySpace c) && !(c == ':')

/-- Python dot: any character except newline. -/
def dotAny : Char → Bool := fun c => !(c == '\n')

/-- Sequence of single-character classes. -/
def reStr (l : List (Char → Bool)) : RE :=
  l.foldr (fun p acc => .seq (.cls p) acc) .eps

/-- The (?P<type>TCPIP) piece, group 2. -/
def reTCPIP : RE :=
  .grp 2 (reStr [ciLetter 't', ciLetter 'c', ciLetter 'p', ciLetter 'i', ciLetter 'p'])

/-- The INSTR literal of the suffix group. -/
def reINSTR : RE :=
  reStr [ciLetter 'i', ciLetter 'n', ciLetter 's', ciLetter 't', ciLetter 'r']

/-- The :: separator. -/
def reColon2 : RE := reStr [chOne ':', chOne ':']

/-- Embedding of the source regex, with named groups numbered
1 = prefix, 2 = type, 3 = arg1, 4 = arg2, 5 = the inner bracket group,
6 = suffix. -/
def visaPattern : RE :=
  .seq (.grp 1 (.seq reTCPIP (.star pyDigit)))
    (.seq (.seq reColon2 (.grp 3 (.plus nonSpaceColon)))
      (.seq
        (.opt (.seq reColon2 (.grp 4 (.seq (.plus nonSpaceColon)
          (.opt (.grp 5 (.seq (.cls (chOne '['))
            (.seq (.plus dotAny) (.cls (chOne ']'))))))))))
        (.seq reColon2 (.grp 6 reINSTR))))

/-- Python re's terminal anchor: end of input, or just before one
trailing newline. -/
def endAnchor : List Char → Groups → Option Groups :=
  fun s g => if s = [] ∨ s = ['\n'] then some g else none

/-- Match the whole string (re.match anchored at the start, pattern
ending in the terminal anchor). -/
def reFullMatch (r : RE) (s : String) : Option Groups :=
  reMatch r s.data [] endAnchor

/-- The dict parse_visa_resource_string builds.  The source's keys type
and prefix are spelled rtype and pfx here. -/
structure VisaResource where
  rtype : String
  pfx : String
  arg1 : String
  arg2 : Option String
  suffix : String
deriving DecidableEq

/-- The Python str.upper for ASCII. -/
def pyUpper (s : String) : String := String.mk (s.data.map Char.toUpper)

/-- Embedding of parse_visa_resource_string: None when the pattern does
not match, else the named groups, with type uppercased and arg2 None when
the optional group did not participate. -/
def parse_visa_resource_string (s : String) : Option VisaResource :=
  match reFullMatch visaPattern s with
  | none => none
  | some g =>
    some
      { rtype := pyUpper (String.mk ((gget g 2).getD [])),
        pfx := String.mk ((gget g 1).getD []),
        arg1 := String.mk ((gget g 3).getD []),
        arg2 := (gget g 4).map String.mk,
        suffix := String.mk ((gget g 6).getD []) }

/-- C9: TCPIP::10.0.0.1::INSTR parses to type TCPIP, prefix TCPIP, host
10.0.0.1, suffix INSTR (and no sub-address); the sub-address of
TCPIP0::10.0.0.1::usb0[1234::5678::MYSERIAL::0]::INSTR is the bracketed
token verbatim, not split at its internal double colons; and the TCPIP
keyword matches case-insensitively (lowercase and mixed-case spellings
parse identically, with type normalized to upper case). -/
theorem parse_visa_resource_cases :
    parse_visa_resource_string "TCPIP::10.0.0.1::INSTR" =
      some ⟨"TCPIP", "TCPIP", "10.0.0.1", none, "INSTR"⟩ ∧
    parse_visa_resource_string "TCPIP0::10.0.0.1::usb0[1234::5678::MYSERIAL::0]::INSTR" =
      some ⟨"TCPIP", "TCPIP0", "10.0.0.1", some "usb0[1234::5678::MYSERIAL::0]", "INSTR"⟩ ∧
    parse_visa_resource_string "tcpip::10.0.0.1::INSTR" =
      some ⟨"TCPIP", "tcpip", "10.0.0.1", none, "INSTR"⟩ ∧
    parse_visa_resource_string "TcpIp0::10.0.0.1::INSTR" =
      some ⟨"TCPIP", "TcpIp0", "10.0.0.1", none, "INSTR"⟩ := by
  refine ⟨by decide, by decide, by decide, by decide⟩

end Vxi11

